import Mathlib

/-!
Shallow embedding of `src/coins/src/utils/dynamodbV3.ts`.

The file models the batched store-access layer: `removeDuplicateKeys`,
`underlyingBatchWrite` (exponential-backoff write retry), `batchWrite`
(25-item chunking), `batchGet` (100-key chunking with recursive retry),
`getHistoricalValues` (range pagination) and `DELETE` (key filtering).

The external DynamoDB store is modelled as deterministic oracles:
a write oracle mapping (retryCount, submitted items) to the unprocessed
remainder, a read oracle mapping (retriesLeft, submitted keys) to a
response, and a query oracle mapping (pk, lastKey) to one page.
`Math.random()` is modelled as a rational draw per retry count, and
each operation additionally returns the trace of native store calls
it issued, so that chunk-size and attempt-count properties are statable.
-/

namespace DDB

/-- An item in the table: partition key `PK` (string), sort key `SK`
(number, modelled as `Int`), and `v` standing for all the other,
structurally unconstrained attributes (so two items may share a key). -/
structure Item where
  PK : String
  SK : Int
  v : Nat
deriving DecidableEq

/-- The duplicate test from `removeDuplicateKeys`:
`checkedItem.PK === item.PK && checkedItem.SK === item.SK`. -/
def keyEq (checkedItem item : Item) : Bool :=
  checkedItem.PK == item.PK && checkedItem.SK == item.SK

/-- Source `removeDuplicateKeys(items)`: keep `items[index]` exactly when no
element of `items.slice(0, index)` has the same `(PK, SK)` pair.
The JS `filter((item, index) => ...)` is rendered with `List.enum`. -/
def removeDuplicateKeys (items : List Item) : List Item :=
  (items.enum.filter (fun p =>
    (items.take p.1).all (fun checkedItem => !keyEq checkedItem p.2))).map
    (fun p => p.2)

/-- A `{PutRequest: {Item: item}}` entry submitted to the native batch write. -/
structure PutRequest where
  item : Item
deriving DecidableEq

/-- Source constant `maxWriteRetries = 6`. -/
def maxWriteRetries : Nat := 6

/-- Source constant `batchWriteStep = 25`: max items written at once. -/
def batchWriteStep : Nat := 25

/-- Source constant `batchGetStep = 100`: max keys per native batch get. -/
def batchGetStep : Nat := 100

/-- Observable behaviour of one run of `underlyingBatchWrite`:
the native batch-write calls issued (in order), the durations passed to
`sleep` (in milliseconds, as rationals), and the final outcome
(`Except.error` models a thrown `Error` with the given message). -/
structure WriteResult where
  calls : List (List PutRequest)
  sleeps : List ℚ
  outcome : Except String Unit

/-- Source `underlyingBatchWrite(items, retryCount, failOnError)`.
`store rc sent` is the store's `UnprocessedItems?.[TableName] ?? []`
for the attempt made at retry count `rc`; `rand rc` is the
`Math.random()` draw of that attempt. -/
def underlyingBatchWrite (store : Nat → List PutRequest → List PutRequest)
    (rand : Nat → ℚ) (items : List PutRequest) (retryCount : Nat)
    (failOnError : Bool) : WriteResult :=
  let unprocessed := store retryCount items
  if unprocessed.length > 0 then
    if _h : retryCount < maxWriteRetries then
      let wait : ℚ := 2 ^ retryCount * 10
      let jitter : ℚ := rand retryCount * wait - wait / 2
      let rest := underlyingBatchWrite store rand unprocessed (retryCount + 1)
        failOnError
      ⟨items :: rest.calls, (wait + jitter) :: rest.sleeps, rest.outcome⟩
    else if failOnError then
      ⟨[items], [], Except.error "Write requests throttled"⟩
    else
      ⟨[items], [], Except.ok ()⟩
  else
    ⟨[items], [], Except.ok ()⟩
termination_by maxWriteRetries - retryCount
decreasing_by omega

/-- The chunking loop `for (let i = 0; i < l.length; i += step)` taking
`l.slice(i, i + step)` at each iteration: one chunk per loop iteration,
`(l.length + step - 1) / step` iterations in total. -/
def sliceChunks (step : Nat) (l : List α) : List (List α) :=
  (List.range ((l.length + step - 1) / step)).map
    (fun j => (l.drop (j * step)).take step)

/-- Source `batchWrite(items, failOnError)`: split into 25-item slices,
deduplicate each slice, wrap each item in a `PutRequest` and drive each
chunk through `underlyingBatchWrite` starting at retry count 0.
The result is the per-chunk `WriteResult` list (chunk order). -/
def batchWrite (store : Nat → List PutRequest → List PutRequest)
    (rand : Nat → ℚ) (items : List Item) (failOnError : Bool) :
    List WriteResult :=
  (sliceChunks batchWriteStep items).map (fun itemsToWrite =>
    underlyingBatchWrite store rand
      ((removeDuplicateKeys itemsToWrite).map (fun item => PutRequest.mk item))
      0 failOnError)

/-- One native batch-get response: `Responses![TableName]` and
`UnprocessedKeys?.[TableName]?.Keys ?? []`.  Keys are addressed items,
so both components are item lists. -/
structure GetResp where
  responses : List Item
  unprocessedKeys : List Item
deriving DecidableEq

/-- Observable behaviour of one `batchGet` call: the native batch-get
calls issued (each a key list), and either the returned item list or the
thrown error message. -/
structure GetResult where
  calls : List (List Item)
  outcome : Except String (List Item)

/-- The `requests` of one `batchGet` level: the 100-key slices of `keys`,
each deduplicated — these are the argument lists of the native batch-get
calls issued at this level. -/
def bgRequests (keys : List Item) : List (List Item) :=
  (sliceChunks batchGetStep keys).map removeDuplicateKeys

/-- The `responses` of one `batchGet` level, one per request. -/
def bgResponses (gstore : Nat → List Item → GetResp) (rl : Nat)
    (keys : List Item) : List GetResp :=
  (bgRequests keys).map (fun req => gstore rl req)

/-- The `processedResponses` of one `batchGet` level:
`[].concat(...responses.map(r => r.Responses![TableName]))`. -/
def bgProcessed (gstore : Nat → List Item → GetResp) (rl : Nat)
    (keys : List Item) : List Item :=
  ((bgResponses gstore rl keys).map (fun resp => resp.responses)).flatten

/-- The `unprocessed` keys of one `batchGet` level:
`responses.map(r => r.UnprocessedKeys?.[TableName]?.Keys ?? []).flat()`. -/
def bgUnprocessed (gstore : Nat → List Item → GetResp) (rl : Nat)
    (keys : List Item) : List Item :=
  ((bgResponses gstore rl keys).map (fun resp => resp.unprocessedKeys)).flatten

/-- Source `batchGet(keys, retriesLeft)`; `gstore rl chunk` is the store's
response to the native batch get issued for `chunk` while the retry
budget is `rl`.  The budget is the first explicit argument so that the
recursion (`retriesLeft - 1`) is structural; the source's four `let`
bindings are the named definitions above. -/
def batchGet (gstore : Nat → List Item → GetResp) :
    Nat → List Item → GetResult
  | 0, _ => ⟨[], Except.error "Not all batchGet requests could be processed"⟩
  | r + 1, keys =>
    if (bgUnprocessed gstore (r + 1) keys).length > 0 then
      let missing := batchGet gstore r (bgUnprocessed gstore (r + 1) keys)
      ⟨bgRequests keys ++ missing.calls,
        missing.outcome.map (fun ms => bgProcessed gstore (r + 1) keys ++ ms)⟩
    else
      ⟨bgRequests keys, Except.ok (bgProcessed gstore (r + 1) keys)⟩

/-- One page returned by `dynamodb.query`: `Items` (absent models an
undefined `result.Items`) and the `SK` of `LastEvaluatedKey` (absent
models an undefined continuation key). -/
structure QueryResult where
  Items : Option (List Item)
  LastEvaluatedKeySK : Option Int
deriving DecidableEq

/-- The do/while body of `getHistoricalValues`, with explicit fuel since
an adversarial store could page forever.  Returns `none` on fuel
exhaustion, otherwise the trace of `(pk, lastKey)` query arguments and
the accumulated items.  `q pk sk` is the store's page for the query
`PK = pk AND SK > sk`. -/
def getHistoricalValuesGo (q : String → Int → QueryResult) (pk : String) :
    Nat → Int → List Item → Option (List (String × Int) × List Item)
  | 0, _, _ => none
  | fuel + 1, lastKey, items =>
    let result := q pk lastKey
    let items2 := match result.Items with
      | some is => items ++ is
      | none => items
    match result.LastEvaluatedKeySK with
    | none => some ([(pk, lastKey)], items2)
    | some k =>
      (getHistoricalValuesGo q pk fuel k items2).map
        (fun r => ((pk, lastKey) :: r.1, r.2))

/-- Source `getHistoricalValues(pk, lastKey)` (the source defaults `lastKey`
to `-1`), starting from an empty accumulator. -/
def getHistoricalValues (q : String → Int → QueryResult) (fuel : Nat)
    (pk : String) (lastKey : Int) :
    Option (List (String × Int) × List Item) :=
  getHistoricalValuesGo q pk fuel lastKey []

/-- A key handed to `DELETE`: at runtime either field may be absent
(`undefined`), which `Option` models. -/
structure DeleteKey where
  PK : Option String
  SK : Option Int
deriving DecidableEq

/-- JS truthiness of `item.PK`: `undefined` and the empty string are falsy. -/
def jsTruthyStr : Option String → Bool
  | none => false
  | some s => !(s == "")

/-- JS truthiness of `item.SK`: `undefined` and `0` are falsy. -/
def jsTruthyInt : Option Int → Bool
  | none => false
  | some n => !(n == 0)

/-- JS loose equality `item.SK == 0`: false for `undefined`. -/
def jsEqZero : Option Int → Bool
  | none => false
  | some n => n == 0

/-- Source `DELETE(keys)`: issue one delete per key passing
`item.PK && (item.SK == 0 || item.SK)`; the result is the list of keys
for which a native delete call is issued, in order. -/
def DELETE (keys : List DeleteKey) : List DeleteKey :=
  keys.filter (fun item =>
    jsTruthyStr item.PK && (jsEqZero item.SK || jsTruthyInt item.SK))

/-! Proof-side auxiliary: a seen-prefix recursion equivalent to
`removeDuplicateKeys`, convenient for induction. -/

/-- Keep `y` exactly when nothing in `seen` shares its key; recurse with
`y` appended to `seen` either way. -/
def rdkAux (seen : List Item) : List Item → List Item
  | [] => []
  | y :: ys =>
    if seen.all (fun c => !keyEq c y) then y :: rdkAux (seen ++ [y]) ys
    else rdkAux (seen ++ [y]) ys

/-- Key-membership test used to state deduplication properties. -/
def isKey (p : String) (s : Int) (it : Item) : Bool :=
  it.PK == p && it.SK == s

/-! Concrete oracles and inputs used by witnesses and counterexamples. -/

/-- Write oracle that always reports every submitted item unprocessed. -/
def wstoreAll : Nat → List PutRequest → List PutRequest := fun _ sent => sent

/-- Write oracle reporting everything unprocessed on the first 6 attempts
(retry counts 0..5) and nothing afterwards. -/
def wstore6 : Nat → List PutRequest → List PutRequest :=
  fun rc sent => if rc < 6 then sent else []

/-- Write oracle that always processes everything. -/
def wstoreNone : Nat → List PutRequest → List PutRequest := fun _ _ => []

/-- A fixed `Math.random()` draw of 1/2 (zero jitter). -/
def rand0 : Nat → ℚ := fun _ => 1 / 2

/-- A single put request. -/
def req0 : PutRequest := ⟨⟨"a", 0, 0⟩⟩

/-- Sixty distinct items, for the chunking witness. -/
def items60 : List Item := (List.range 60).map (fun i => ⟨"p", (i : Int), 0⟩)

/-- A list of 250 distinct keys, for the chunking witness. -/
def keys250 : List Item := (List.range 250).map (fun i => ⟨"k", (i : Int), 0⟩)

/-- Read oracle that processes everything. -/
def gstoreNone : Nat → List Item → GetResp := fun _ _ => ⟨[], []⟩

/-- The key that `gstoreStuck` never processes. -/
def keyA : Item := ⟨"a", 1, 0⟩

/-- Read oracle that always reports `keyA` unprocessed. -/
def gstoreStuck : Nat → List Item → GetResp := fun _ _ => ⟨[], [keyA]⟩

/-- A list of 26 items whose first and last share the key `("a", 0)`; every other
key is distinct, so the duplicate pair straddles the 25-item chunk split. -/
def ex26 : List Item :=
  ⟨"a", 0, 0⟩ :: ((List.range 24).map (fun i => ⟨"b", (i : Int) + 1, 0⟩) ++
    [⟨"a", 0, 25⟩])

/-- Two items sharing the key `("a", 0)` inside a single chunk. -/
def exDup : List Item := [⟨"a", 0, 0⟩, ⟨"a", 0, 1⟩]

/-- Query oracle for the spec's pagination example: page one holds
SK 1,2,3 with continuation key 3, page two holds SK 5,8 with none. -/
def q0 : String → Int → QueryResult := fun _ lastKey =>
  if lastKey == -1 then
    ⟨some [⟨"p", 1, 0⟩, ⟨"p", 2, 0⟩, ⟨"p", 3, 0⟩], some 3⟩
  else if lastKey == 3 then ⟨some [⟨"p", 5, 0⟩, ⟨"p", 8, 0⟩], none⟩
  else ⟨some [], none⟩

/-- The amended delete predicate: `PK` present and non-empty, `SK`
present (zero included). -/
def amendedDeletePred (k : DeleteKey) : Bool :=
  (match k.PK with
    | some p => !(p == "")
    | none => false) && k.SK.isSome

/-! Lemmas about `removeDuplicateKeys` via `rdkAux`. -/

theorem keyEq_true_iff (c y : Item) : keyEq c y = true ↔ c.PK = y.PK ∧ c.SK = y.SK := by
  simp [keyEq]

theorem isKey_true_iff (p : String) (s : Int) (it : Item) :
    isKey p s it = true ↔ it.PK = p ∧ it.SK = s := by
  simp [isKey]

theorem rdk_bridge (xs : List Item) : ∀ (seen L : List Item), L = seen ++ xs →
    ((List.enumFrom seen.length xs).filter (fun p =>
      (L.take p.1).all (fun checkedItem => !keyEq checkedItem p.2))).map
      (fun p => p.2) = rdkAux seen xs := by
  induction xs with
  | nil => intro seen L _; simp [rdkAux]
  | cons y ys ih =>
    intro seen L hL
    subst hL
    have hTL : (seen ++ y :: ys).take seen.length = seen := List.take_left seen _
    have ht := ih (seen ++ [y]) (seen ++ y :: ys) (by simp)
    have hlen : (seen ++ [y]).length = seen.length + 1 := by simp
    rw [hlen] at ht
    rw [List.enumFrom_cons, List.filter_cons]
    by_cases hc : seen.all (fun c => !keyEq c y)
    · simp only [hTL, hc, if_true, List.map_cons, ht, rdkAux]
    · simp only [hTL, ht, rdkAux]
      rw [if_neg (by simpa using hc), if_neg (by simpa using hc)]
      exact ht

theorem removeDuplicateKeys_eq_rdkAux (items : List Item) :
    removeDuplicateKeys items = rdkAux [] items := by
  have h := rdk_bridge items [] items (by simp)
  simpa [removeDuplicateKeys, List.enum_eq_enumFrom] using h

theorem rdkAux_sublist (xs : List Item) : ∀ seen, (rdkAux seen xs).Sublist xs := by
  induction xs with
  | nil => intro seen; simp [rdkAux]
  | cons y ys ih =>
    intro seen
    rw [rdkAux]
    by_cases hc : seen.all (fun c => !keyEq c y)
    · simpa [hc] using
        (List.cons_sublist_cons (a := y)).mpr (ih (seen ++ [y]))
    · simp only [hc, if_false]
      exact (ih (seen ++ [y])).trans (List.sublist_cons_self y ys)

theorem removeDuplicateKeys_sublist (items : List Item) :
    (removeDuplicateKeys items).Sublist items := by
  rw [removeDuplicateKeys_eq_rdkAux]; exact rdkAux_sublist items []

theorem rdkAux_mem_seen (xs : List Item) : ∀ seen z, z ∈ rdkAux seen xs →
    ∀ c ∈ seen, keyEq c z = false := by
  induction xs with
  | nil => intro seen z hz; simp [rdkAux] at hz
  | cons y ys ih =>
    intro seen z hz c hc
    rw [rdkAux] at hz
    by_cases hall : seen.all (fun c => !keyEq c y)
    · simp only [hall, if_true, List.mem_cons] at hz
      rcases hz with rfl | hz
      · simpa using List.all_eq_true.mp hall c hc
      · exact ih (seen ++ [y]) z hz c (by simp [hc])
    · simp only [hall, if_false] at hz
      exact ih (seen ++ [y]) z hz c (by simp [hc])

theorem rdkAux_pairwise (xs : List Item) : ∀ seen,
    (rdkAux seen xs).Pairwise (fun a b => keyEq a b = false) := by
  induction xs with
  | nil => intro seen; simp [rdkAux]
  | cons y ys ih =>
    intro seen
    rw [rdkAux]
    by_cases hc : seen.all (fun c => !keyEq c y)
    · simp only [hc, if_true, List.pairwise_cons]
      refine ⟨fun z hz => ?_, ih (seen ++ [y])⟩
      exact rdkAux_mem_seen ys (seen ++ [y]) z hz y (by simp)
    · simp only [hc, if_false]; exact ih (seen ++ [y])

theorem rdkAux_filter_pos (xs : List Item) (p : String) (s : Int) :
    ∀ seen, seen.any (isKey p s) = true →
    (rdkAux seen xs).filter (isKey p s) = [] := by
  intro seen hseen
  rw [List.filter_eq_nil_iff]
  intro z hz hKz
  obtain ⟨c, hc, hKc⟩ := List.any_eq_true.mp hseen
  have hfalse := rdkAux_mem_seen xs seen z hz c hc
  have : keyEq c z = true := by
    rw [keyEq_true_iff]
    rw [isKey_true_iff] at hKc hKz
    exact ⟨hKc.1.trans hKz.1.symm, hKc.2.trans hKz.2.symm⟩
  simp [this] at hfalse

theorem rdkAux_filter_neg (xs : List Item) (p : String) (s : Int) :
    ∀ seen, seen.any (isKey p s) = false →
    (rdkAux seen xs).filter (isKey p s) =
      (xs.filter (isKey p s)).take 1 := by
  induction xs with
  | nil => intro seen _; simp [rdkAux]
  | cons y ys ih =>
    intro seen hseen
    rw [rdkAux]
    by_cases hc : seen.all (fun c => !keyEq c y)
    · rw [if_pos hc]
      by_cases hy : isKey p s y = true
      · have hpos : (seen ++ [y]).any (isKey p s) = true := by
          simp [List.any_append, hy]
        rw [List.filter_cons, List.filter_cons, if_pos hy, if_pos hy]
        rw [rdkAux_filter_pos ys p s (seen ++ [y]) hpos]
        simp
      · have hyf : isKey p s y = false := by simpa using hy
        have hneg : (seen ++ [y]).any (isKey p s) = false := by
          simp [List.any_append, hseen, hyf]
        rw [List.filter_cons, List.filter_cons, if_neg hy, if_neg hy]
        exact ih (seen ++ [y]) hneg
    · have hcf : seen.all (fun c => !keyEq c y) = false := by simpa using hc
      have hy : isKey p s y = false := by
        cases hy' : isKey p s y
        · rfl
        · exfalso
          obtain ⟨c, hcmem, hckey⟩ : ∃ c ∈ seen, keyEq c y = true := by
            have h' := List.all_eq_false.mp hcf
            obtain ⟨c, hcmem, hcnot⟩ := h'
            exact ⟨c, hcmem, by simpa using hcnot⟩
          have hcK : isKey p s c = true := by
            rw [isKey_true_iff]
            rw [isKey_true_iff] at hy'
            rw [keyEq_true_iff] at hckey
            exact ⟨hckey.1.trans hy'.1, hckey.2.trans hy'.2⟩
          have hany : seen.any (isKey p s) = true :=
            List.any_eq_true.mpr ⟨c, hcmem, hcK⟩
          rw [hany] at hseen
          exact absurd hseen (by simp)
      have hneg : (seen ++ [y]).any (isKey p s) = false := by
        simp [List.any_append, hseen, hy]
      rw [if_neg hc]
      rw [ih (seen ++ [y]) hneg]
      rw [List.filter_cons, if_neg (by simp [hy])]

theorem rdkAux_of_pairwise (xs : List Item) : ∀ seen,
    xs.Pairwise (fun a b => keyEq a b = false) →
    (∀ c ∈ seen, ∀ y ∈ xs, keyEq c y = false) →
    rdkAux seen xs = xs := by
  induction xs with
  | nil => intro seen _ _; simp [rdkAux]
  | cons y ys ih =>
    intro seen hpw hseen
    have hc : seen.all (fun c => !keyEq c y) = true := by
      rw [List.all_eq_true]
      intro c hcmem
      simpa using hseen c hcmem y (by simp)
    rw [rdkAux, hc, if_pos rfl]
    rw [List.pairwise_cons] at hpw
    have := ih (seen ++ [y]) hpw.2 (fun c hcmem z hzmem => by
      rcases List.mem_append.mp hcmem with hcl | hcr
      · exact hseen c hcl z (by simp [hzmem])
      · have : c = y := by simpa using hcr
        subst this
        exact hpw.1 z hzmem)
    rw [this]

/-- C4: for every input list, `removeDuplicateKeys` returns a sublist of
the input (so relative order is preserved), and for every `(PK, SK)` pair
its output's entries with that key are exactly the first input entry with
that key — each distinct pair occurring in the input appears exactly
once, first occurrence kept. -/
theorem removeDuplicateKeys_spec (items : List Item) :
    (removeDuplicateKeys items).Sublist items ∧
    ∀ p s, (removeDuplicateKeys items).filter (isKey p s) =
      (items.filter (isKey p s)).take 1 := by
  refine ⟨removeDuplicateKeys_sublist items, fun p s => ?_⟩
  rw [removeDuplicateKeys_eq_rdkAux]
  exact rdkAux_filter_neg items p s [] (by simp)

/-- C10: `removeDuplicateKeys` is idempotent, its output never contains
two entries sharing a `(PK, SK)` pair, and an input already free of
duplicate pairs is returned unchanged. -/
theorem removeDuplicateKeys_idempotent (l : List Item) :
    removeDuplicateKeys (removeDuplicateKeys l) = removeDuplicateKeys l ∧
    (removeDuplicateKeys l).Pairwise (fun a b => keyEq a b = false) ∧
    (l.Pairwise (fun a b => keyEq a b = false) → removeDuplicateKeys l = l) := by
  have hfix : ∀ m : List Item, m.Pairwise (fun a b => keyEq a b = false) →
      removeDuplicateKeys m = m := by
    intro m hm
    rw [removeDuplicateKeys_eq_rdkAux]
    exact rdkAux_of_pairwise m [] hm (by simp)
  have hpw : (removeDuplicateKeys l).Pairwise (fun a b => keyEq a b = false) := by
    rw [removeDuplicateKeys_eq_rdkAux]
    exact rdkAux_pairwise l []
  exact ⟨hfix _ hpw, hpw, hfix l⟩

/-- Witness for C10 at a concrete duplicate-free list. -/
theorem removeDuplicateKeys_idempotent_witness :
    ([⟨"a", 1, 0⟩, ⟨"b", 2, 1⟩] : List Item).Pairwise
      (fun a b => keyEq a b = false) ∧
    removeDuplicateKeys [⟨"a", 1, 0⟩, ⟨"b", 2, 1⟩] =
      [⟨"a", 1, 0⟩, ⟨"b", 2, 1⟩] :=
  ⟨by decide, (removeDuplicateKeys_idempotent _).2.2 (by decide)⟩

/-- C8 counterexample: the key with `PK` the (present) empty string and
`SK` present equal to 1 has both components present, yet `DELETE` issues
no delete for it, because JS truthiness rejects the empty string. -/
theorem DELETE_presence_cex :
    (DeleteKey.mk (some "") (some 1)).PK.isSome = true ∧
    (DeleteKey.mk (some "") (some 1)).SK.isSome = true ∧
    DELETE [DeleteKey.mk (some "") (some 1)] = [] := by
  decide

/-- C8 (amended): `DELETE` issues exactly one delete per key whose `PK`
is present and non-empty and whose `SK` is present (zero counted as
present), silently skipping every other key; in particular the spec's
example issues exactly the delete for `(PK "x", SK 0)`. -/
theorem DELETE_amended (keys : List DeleteKey) :
    DELETE keys = keys.filter amendedDeletePred ∧
    DELETE [DeleteKey.mk (some "x") (some 0), DeleteKey.mk (some "y") none,
        DeleteKey.mk none (some 1)] =
      [DeleteKey.mk (some "x") (some 0)] := by
  constructor
  · apply List.filter_congr
    intro k _
    cases hp : k.PK <;> cases hs : k.SK <;>
      simp [amendedDeletePred, jsTruthyStr, jsTruthyInt, jsEqZero, hp, hs,
        DELETE]
  · decide

/-! Pagination lemmas. -/

theorem getHistoricalValuesGo_spec (q : String → Int → QueryResult)
    (pk : String) : ∀ (fuel : Nat) (lastKey : Int) (acc : List Item)
    (calls : List (String × Int)) (items : List Item),
    getHistoricalValuesGo q pk fuel lastKey acc = some (calls, items) →
    calls.head? = some (pk, lastKey) ∧
    (∀ c ∈ calls, c.1 = pk) ∧
    List.Chain' (fun a b => (q a.1 a.2).LastEvaluatedKeySK = some b.2) calls ∧
    (∃ lastC, calls.getLast? = some lastC ∧
      (q lastC.1 lastC.2).LastEvaluatedKeySK = none) ∧
    items = acc ++ (calls.map (fun c => ((q c.1 c.2).Items).getD [])).flatten := by
  intro fuel
  induction fuel with
  | zero =>
    intro lastKey acc calls items h
    simp [getHistoricalValuesGo] at h
  | succ fuel ih =>
    intro lastKey acc calls items h
    have hacc : ∀ acc2 : List Item,
        (match (q pk lastKey).Items with
          | some is => acc2 ++ is
          | none => acc2) = acc2 ++ ((q pk lastKey).Items).getD [] := by
      intro acc2
      cases (q pk lastKey).Items <;> simp
    cases hLEK : (q pk lastKey).LastEvaluatedKeySK with
    | none =>
      simp only [getHistoricalValuesGo, hLEK, Option.some.injEq,
        Prod.mk.injEq] at h
      obtain ⟨rfl, hitems⟩ := h
      refine ⟨rfl, by simp, by simp, ⟨(pk, lastKey), by simp, hLEK⟩, ?_⟩
      rw [← hitems, hacc acc]
      simp
    | some k =>
      simp only [getHistoricalValuesGo, hLEK, Option.map_eq_some'] at h
      obtain ⟨⟨calls', items'⟩, hrec, heq⟩ := h
      simp only [Prod.mk.injEq] at heq
      obtain ⟨rfl, rfl⟩ := heq
      rw [hacc acc] at hrec
      obtain ⟨hhead, hpk, hchain, ⟨lastC, hlast, hlastnone⟩, hitems⟩ :=
        ih k (acc ++ ((q pk lastKey).Items).getD []) calls' items' hrec
      refine ⟨rfl, ?_, ?_, ⟨lastC, ?_, hlastnone⟩, ?_⟩
      · intro c hc
        rcases List.mem_cons.mp hc with rfl | hc'
        · rfl
        · exact hpk c hc'
      · rw [List.chain'_cons']
        refine ⟨fun b hb => ?_, hchain⟩
        rw [hhead] at hb
        simp only [Option.mem_def, Option.some.injEq] at hb
        subst hb
        exact hLEK
      · cases calls' with
        | nil => simp at hhead
        | cons b l => rw [List.getLast?_cons_cons]; exact hlast
      · rw [hitems]
        simp [List.append_assoc]

/-- C5: whenever `getHistoricalValues` returns (the fuel did not run
out), the trace of issued queries starts at the caller's watermark, all
queries target the caller's partition, each successive watermark is
exactly the previous page's reported `LastEvaluatedKey.SK`, the loop
stops exactly at the first page reporting no such key, and the returned
items are the concatenation of all pages in order; moreover a partition
whose first page is empty with no continuation key yields an empty
result without error. -/
theorem getHistoricalValues_spec (q : String → Int → QueryResult)
    (pk : String) (fuel : Nat) (lastKey : Int)
    (calls : List (String × Int)) (items : List Item)
    (h : getHistoricalValues q fuel pk lastKey = some (calls, items)) :
    calls.head? = some (pk, lastKey) ∧
    (∀ c ∈ calls, c.1 = pk) ∧
    List.Chain' (fun a b => (q a.1 a.2).LastEvaluatedKeySK = some b.2) calls ∧
    (∃ lastC, calls.getLast? = some lastC ∧
      (q lastC.1 lastC.2).LastEvaluatedKeySK = none) ∧
    items = (calls.map (fun c => ((q c.1 c.2).Items).getD [])).flatten ∧
    (∀ (q2 : String → Int → QueryResult) (pk2 : String) (lk2 : Int)
      (f2 : Nat), q2 pk2 lk2 = ⟨some [], none⟩ →
      getHistoricalValues q2 (f2 + 1) pk2 lk2 = some ([(pk2, lk2)], [])) := by
  obtain ⟨h1, h2, h3, h4, h5⟩ :=
    getHistoricalValuesGo_spec q pk fuel lastKey [] calls items h
  refine ⟨h1, h2, h3, h4, by simpa using h5, ?_⟩
  intro q2 pk2 lk2 f2 hq2
  simp [getHistoricalValues, getHistoricalValuesGo, hq2]

/-- Witness for C5: the spec's two-page example store `q0` paginates to
SK 1,2,3,5,8 in order, and the page concatenation equation holds there. -/
theorem getHistoricalValues_spec_witness :
    getHistoricalValues q0 5 "p" (-1) =
      some ([("p", -1), ("p", 3)],
        [⟨"p", 1, 0⟩, ⟨"p", 2, 0⟩, ⟨"p", 3, 0⟩, ⟨"p", 5, 0⟩, ⟨"p", 8, 0⟩]) ∧
    ([⟨"p", 1, 0⟩, ⟨"p", 2, 0⟩, ⟨"p", 3, 0⟩, ⟨"p", 5, 0⟩, ⟨"p", 8, 0⟩]
        : List Item) =
      (([("p", -1), ("p", 3)] : List (String × Int)).map
        (fun c => ((q0 c.1 c.2).Items).getD [])).flatten :=
  ⟨by decide,
    (getHistoricalValues_spec q0 "p" 5 (-1) [("p", -1), ("p", 3)]
      [⟨"p", 1, 0⟩, ⟨"p", 2, 0⟩, ⟨"p", 3, 0⟩, ⟨"p", 5, 0⟩, ⟨"p", 8, 0⟩]
      (by decide)).2.2.2.2.1⟩

/-! Chunking lemmas. -/

theorem sliceChunks_length_le (step : Nat) (l : List α) :
    ∀ c ∈ sliceChunks step l, c.length ≤ step := by
  intro c hc
  obtain ⟨j, _, rfl⟩ := List.mem_map.mp hc
  calc ((l.drop (j * step)).take step).length
      ≤ step := by rw [List.length_take]; exact min_le_left _ _

theorem sliceChunks_single (n : Nat) (l : List α) (h0 : l ≠ [])
    (hlen : l.length ≤ n) : sliceChunks n l = [l] := by
  have hpos : 0 < l.length := List.length_pos.mpr h0
  have hdiv : (l.length + n - 1) / n = 1 :=
    Nat.div_eq_of_lt_le (by omega) (by omega)
  simp [sliceChunks, hdiv, List.range_succ, List.take_of_length_le hlen]

theorem removeDuplicateKeys_singleton (a : Item) :
    removeDuplicateKeys [a] = [a] := by
  simp [removeDuplicateKeys, List.enum_cons, keyEq]

theorem batchGet_succ_nil (gstore : Nat → List Item → GetResp) (r : Nat)
    (keys : List Item) (hnil : bgUnprocessed gstore (r + 1) keys = []) :
    batchGet gstore (r + 1) keys =
      ⟨bgRequests keys, Except.ok (bgProcessed gstore (r + 1) keys)⟩ := by
  simp only [batchGet]
  rw [if_neg (by simp [hnil])]

theorem batchGet_succ_pos (gstore : Nat → List Item → GetResp) (r : Nat)
    (keys : List Item) (hne : bgUnprocessed gstore (r + 1) keys ≠ []) :
    batchGet gstore (r + 1) keys =
      ⟨bgRequests keys ++
          (batchGet gstore r (bgUnprocessed gstore (r + 1) keys)).calls,
        (batchGet gstore r (bgUnprocessed gstore (r + 1) keys)).outcome.map
          (fun ms => bgProcessed gstore (r + 1) keys ++ ms)⟩ := by
  simp only [batchGet]
  rw [if_pos (by simpa [List.length_pos] using hne)]

/-- C7: with retry budget `r + 1`, a successful level of `batchGet`
returns the concatenation of the processed responses of all chunks in
chunk order; when no chunk reports an unprocessed key it returns exactly
those and issues no further native call, and otherwise it recurses on
exactly the collected unprocessed keys with budget `r`, appending the
recursive result at the end (and its native calls after its own). -/
theorem batchGet_structure (gstore : Nat → List Item → GetResp) (r : Nat)
    (keys : List Item) :
    (bgUnprocessed gstore (r + 1) keys = [] →
      batchGet gstore (r + 1) keys =
        ⟨bgRequests keys, Except.ok (bgProcessed gstore (r + 1) keys)⟩) ∧
    (bgUnprocessed gstore (r + 1) keys ≠ [] →
      batchGet gstore (r + 1) keys =
        ⟨bgRequests keys ++
            (batchGet gstore r (bgUnprocessed gstore (r + 1) keys)).calls,
          (batchGet gstore r (bgUnprocessed gstore (r + 1) keys)).outcome.map
            (fun ms => bgProcessed gstore (r + 1) keys ++ ms)⟩) :=
  ⟨batchGet_succ_nil gstore r keys, batchGet_succ_pos gstore r keys⟩

/-- Witness for C7 at a store that processes everything: no recursion,
result is the lone chunk's processed responses. -/
theorem batchGet_structure_witness :
    bgUnprocessed gstoreNone 1 [keyA] = [] ∧
    batchGet gstoreNone 1 [keyA] =
      ⟨bgRequests [keyA], Except.ok (bgProcessed gstoreNone 1 [keyA])⟩ :=
  ⟨by decide, (batchGet_structure gstoreNone 0 [keyA]).1 (by decide)⟩

/-- C3: `batchGet` with no retries left fails immediately with the
`BatchGetExhausted` message without issuing any native call, and against
a store that always reports the key `k0` unprocessed, a call on a
nonempty key list of at most one chunk with `retriesLeft = 3` fails with
that message after exactly 3 native batch-get attempts. -/
theorem batchGet_exhaustion (gstore : Nat → List Item → GetResp)
    (keys : List Item) (k0 : Item) (hne : keys ≠ [])
    (hlen : keys.length ≤ 100)
    (hstuck : ∀ rl c, (gstore rl c).unprocessedKeys = [k0]) :
    (∀ ks : List Item, batchGet gstore 0 ks =
      ⟨[], Except.error "Not all batchGet requests could be processed"⟩) ∧
    (batchGet gstore 3 keys).outcome =
      Except.error "Not all batchGet requests could be processed" ∧
    (batchGet gstore 3 keys).calls.length = 3 := by
  have hreq : bgRequests keys = [removeDuplicateKeys keys] := by
    rw [bgRequests, sliceChunks_single batchGetStep keys hne hlen]
    rfl
  have hreq1 : bgRequests [k0] = [[k0]] := by
    rw [bgRequests,
      sliceChunks_single batchGetStep [k0] (by simp) (by simp [batchGetStep])]
    simp [removeDuplicateKeys_singleton]
  have hU : ∀ rl, bgUnprocessed gstore rl keys = [k0] := by
    intro rl
    simp [bgUnprocessed, bgResponses, hreq, hstuck]
  have hU1 : ∀ rl, bgUnprocessed gstore rl [k0] = [k0] := by
    intro rl
    simp [bgUnprocessed, bgResponses, hreq1, hstuck]
  have h0 : ∀ ks : List Item, batchGet gstore 0 ks =
      ⟨[], Except.error "Not all batchGet requests could be processed"⟩ := by
    intro ks
    simp [batchGet]
  have h1 : batchGet gstore 1 [k0] =
      ⟨[[k0]], Except.error "Not all batchGet requests could be processed"⟩ := by
    rw [batchGet_succ_pos gstore 0 [k0] (by rw [hU1]; simp), hU1, h0, hreq1]
    simp [Except.map]
  have h2 : batchGet gstore 2 [k0] =
      ⟨[[k0], [k0]],
        Except.error "Not all batchGet requests could be processed"⟩ := by
    rw [batchGet_succ_pos gstore 1 [k0] (by rw [hU1]; simp), hU1, h1, hreq1]
    simp [Except.map]
  have h3 : batchGet gstore 3 keys =
      ⟨removeDuplicateKeys keys :: [[k0], [k0]],
        Except.error "Not all batchGet requests could be processed"⟩ := by
    rw [batchGet_succ_pos gstore 2 keys (by rw [hU]; simp), hU, h2, hreq]
    simp [Except.map]
  exact ⟨h0, by simp [h3], by simp [h3]⟩

/-- Witness for C3 at the concrete stuck store `gstoreStuck`. -/
theorem batchGet_exhaustion_witness :
    ([keyA] : List Item) ≠ [] ∧
    (batchGet gstoreStuck 3 [keyA]).outcome =
      Except.error "Not all batchGet requests could be processed" ∧
    (batchGet gstoreStuck 3 [keyA]).calls.length = 3 :=
  ⟨by decide,
    (batchGet_exhaustion gstoreStuck [keyA] keyA (by decide) (by decide)
      (fun _ _ => rfl)).2⟩

/-! Write retry lemmas. -/

theorem underlyingBatchWrite_done (store : Nat → List PutRequest → List PutRequest)
    (rand : Nat → ℚ) (items : List PutRequest) (rc : Nat) (f : Bool)
    (he : store rc items = []) :
    underlyingBatchWrite store rand items rc f =
      ⟨[items], [], Except.ok ()⟩ := by
  rw [underlyingBatchWrite]
  simp [he]

theorem underlyingBatchWrite_step (store : Nat → List PutRequest → List PutRequest)
    (rand : Nat → ℚ) (items : List PutRequest) (rc : Nat) (f : Bool)
    (hrc : rc < maxWriteRetries) (hne : store rc items ≠ []) :
    underlyingBatchWrite store rand items rc f =
      ⟨items :: (underlyingBatchWrite store rand (store rc items) (rc + 1) f).calls,
        ((2 : ℚ) ^ rc * 10 +
            (rand rc * ((2 : ℚ) ^ rc * 10) - (2 : ℚ) ^ rc * 10 / 2)) ::
          (underlyingBatchWrite store rand (store rc items) (rc + 1) f).sleeps,
        (underlyingBatchWrite store rand (store rc items) (rc + 1) f).outcome⟩ := by
  rw [underlyingBatchWrite]
  rw [if_pos (by simpa [List.length_pos] using hne), dif_pos hrc]

theorem underlyingBatchWrite_exhausted
    (store : Nat → List PutRequest → List PutRequest) (rand : Nat → ℚ)
    (items : List PutRequest) (rc : Nat) (f : Bool)
    (hrc : ¬rc < maxWriteRetries) (hne : store rc items ≠ []) :
    underlyingBatchWrite store rand items rc f =
      ⟨[items], [],
        if f then Except.error "Write requests throttled" else Except.ok ()⟩ := by
  rw [underlyingBatchWrite]
  rw [if_pos (by simpa [List.length_pos] using hne), dif_neg hrc]
  cases f <;> simp

/-- C6: in the write retry loop at retry count `k < 6` with a nonempty
unprocessed remainder, the slept duration equals
`2^k * 10 + (rand * (2^k * 10) - (2^k * 10) / 2)` milliseconds, which
for every random draw in `[0, 1)` lies in `[5 * 2^k, 15 * 2^k)`, and the
loop retries with exactly the store-reported unprocessed subset at retry
count `k + 1` (trace and outcome continue with that recursive call). -/
theorem underlyingBatchWrite_backoff
    (store : Nat → List PutRequest → List PutRequest) (rand : Nat → ℚ)
    (items : List PutRequest) (k : Nat) (f : Bool)
    (hk : k < maxWriteRetries) (hne : store k items ≠ [])
    (h0 : 0 ≤ rand k) (h1 : rand k < 1) :
    underlyingBatchWrite store rand items k f =
      ⟨items :: (underlyingBatchWrite store rand (store k items) (k + 1) f).calls,
        ((2 : ℚ) ^ k * 10 +
            (rand k * ((2 : ℚ) ^ k * 10) - (2 : ℚ) ^ k * 10 / 2)) ::
          (underlyingBatchWrite store rand (store k items) (k + 1) f).sleeps,
        (underlyingBatchWrite store rand (store k items) (k + 1) f).outcome⟩ ∧
    5 * (2 : ℚ) ^ k ≤
      (2 : ℚ) ^ k * 10 +
        (rand k * ((2 : ℚ) ^ k * 10) - (2 : ℚ) ^ k * 10 / 2) ∧
    (2 : ℚ) ^ k * 10 +
        (rand k * ((2 : ℚ) ^ k * 10) - (2 : ℚ) ^ k * 10 / 2) <
      15 * (2 : ℚ) ^ k := by
  have hpow : (0 : ℚ) < (2 : ℚ) ^ k := by positivity
  refine ⟨underlyingBatchWrite_step store rand items k f hk hne, ?_, ?_⟩
  · nlinarith [mul_nonneg h0 hpow.le]
  · nlinarith [(mul_lt_mul_of_pos_right h1 hpow)]

/-- Witness for C6 at retry count 0, a store echoing everything back and
the draw 1/2: the slept duration is exactly 10 ms, inside `[5, 15)`. -/
theorem underlyingBatchWrite_backoff_witness :
    wstoreAll 0 [req0] ≠ [] ∧ (0 : ℚ) ≤ rand0 0 ∧ rand0 0 < 1 ∧
    (underlyingBatchWrite wstoreAll rand0 [req0] 0 true =
      ⟨[req0] ::
          (underlyingBatchWrite wstoreAll rand0 (wstoreAll 0 [req0]) 1 true).calls,
        ((2 : ℚ) ^ 0 * 10 +
            (rand0 0 * ((2 : ℚ) ^ 0 * 10) - (2 : ℚ) ^ 0 * 10 / 2)) ::
          (underlyingBatchWrite wstoreAll rand0 (wstoreAll 0 [req0]) 1 true).sleeps,
        (underlyingBatchWrite wstoreAll rand0 (wstoreAll 0 [req0]) 1 true).outcome⟩ ∧
      5 * (2 : ℚ) ^ 0 ≤
        (2 : ℚ) ^ 0 * 10 +
          (rand0 0 * ((2 : ℚ) ^ 0 * 10) - (2 : ℚ) ^ 0 * 10 / 2) ∧
      (2 : ℚ) ^ 0 * 10 +
          (rand0 0 * ((2 : ℚ) ^ 0 * 10) - (2 : ℚ) ^ 0 * 10 / 2) <
        15 * (2 : ℚ) ^ 0) :=
  ⟨by decide, by norm_num [rand0], by norm_num [rand0],
    underlyingBatchWrite_backoff wstoreAll rand0 [req0] 0 true
      (by norm_num [maxWriteRetries]) (by decide) (by norm_num [rand0])
      (by norm_num [rand0])⟩

theorem underlyingBatchWrite_allUnprocessed
    (store : Nat → List PutRequest → List PutRequest) (rand : Nat → ℚ)
    (items : List PutRequest) (f : Bool) (hne : items ≠ [])
    (hall : ∀ k, k ≤ 6 → store k items = items) :
    ∀ n, n ≤ 6 →
    (underlyingBatchWrite store rand items (6 - n) f).calls =
      List.replicate (n + 1) items ∧
    (underlyingBatchWrite store rand items (6 - n) f).outcome =
      (if f then Except.error "Write requests throttled" else Except.ok ()) := by
  intro n
  induction n with
  | zero =>
    intro _
    have h := underlyingBatchWrite_exhausted store rand items 6 f
      (by simp [maxWriteRetries]) (by rw [hall 6 (by omega)]; exact hne)
    simp [Nat.sub_zero, h, List.replicate]
  | succ n ihn =>
    intro hn
    have hlt : 6 - (n + 1) < maxWriteRetries := by
      simp only [maxWriteRetries]; omega
    have hstore : store (6 - (n + 1)) items = items := hall _ (by omega)
    have hstep := underlyingBatchWrite_step store rand items (6 - (n + 1)) f
      hlt (by rw [hstore]; exact hne)
    rw [hstore] at hstep
    have hsucc : 6 - (n + 1) + 1 = 6 - n := by omega
    rw [hsucc] at hstep
    obtain ⟨ihc, iho⟩ := ihn (by omega)
    rw [hstep]
    exact ⟨by simp [ihc, List.replicate_succ], iho⟩

/-- C1 (amended): if the store reports all items unprocessed on each of
the first 7 attempts of a chunk's retry loop (the initial attempt plus
all 6 retries, retry counts 0 through 6), the loop makes exactly 7
native calls, a `failOnError = true` run fails with the
`Write requests throttled` error and a `failOnError = false` run returns
normally without error. -/
theorem underlyingBatchWrite_throttle_amended
    (store : Nat → List PutRequest → List PutRequest) (rand : Nat → ℚ)
    (items : List PutRequest) (hne : items ≠ [])
    (hall : ∀ k, k ≤ 6 → store k items = items) :
    (underlyingBatchWrite store rand items 0 true).outcome =
      Except.error "Write requests throttled" ∧
    (underlyingBatchWrite store rand items 0 true).calls =
      List.replicate 7 items ∧
    (underlyingBatchWrite store rand items 0 false).outcome = Except.ok () ∧
    (underlyingBatchWrite store rand items 0 false).calls =
      List.replicate 7 items := by
  have htrue := underlyingBatchWrite_allUnprocessed store rand items true hne
    hall 6 (le_refl 6)
  have hfalse := underlyingBatchWrite_allUnprocessed store rand items false hne
    hall 6 (le_refl 6)
  simp only [Nat.sub_self] at htrue hfalse
  exact ⟨by simp [htrue.2], htrue.1, by simp [hfalse.2], hfalse.1⟩

/-- Witness for C1's amended theorem at the always-unprocessed store. -/
theorem underlyingBatchWrite_throttle_amended_witness :
    ([req0] : List PutRequest) ≠ [] ∧
    (underlyingBatchWrite wstoreAll rand0 [req0] 0 true).outcome =
      Except.error "Write requests throttled" ∧
    (underlyingBatchWrite wstoreAll rand0 [req0] 0 false).outcome =
      Except.ok () :=
  ⟨by decide,
    (underlyingBatchWrite_throttle_amended wstoreAll rand0 [req0] (by decide)
      (fun _ _ => rfl)).1,
    (underlyingBatchWrite_throttle_amended wstoreAll rand0 [req0] (by decide)
      (fun _ _ => rfl)).2.2.1⟩

/-- C1 counterexample: against a store that reports everything
unprocessed on the first 6 attempts (retry counts 0 through 5) but
processes the 7th attempt, `underlyingBatchWrite` with
`failOnError = true` makes 7 native calls and returns normally — it does
not throw `Write requests throttled` — so 6 all-unprocessed attempts do
not suffice to trigger the throttle error. -/
theorem underlyingBatchWrite_throttle_cex :
    (underlyingBatchWrite wstore6 rand0 [req0] 0 true).outcome =
      Except.ok () ∧
    (underlyingBatchWrite wstore6 rand0 [req0] 0 true).calls =
      List.replicate 7 [req0] := by
  have h6 : wstore6 6 [req0] = [] := by decide
  have hbase := underlyingBatchWrite_done wstore6 rand0 [req0] 6 true h6
  have hstep : ∀ n, n ≤ 6 →
      (underlyingBatchWrite wstore6 rand0 [req0] (6 - n) true).outcome =
        Except.ok () ∧
      (underlyingBatchWrite wstore6 rand0 [req0] (6 - n) true).calls =
        List.replicate (n + 1) [req0] := by
    intro n
    induction n with
    | zero => intro _; simp [hbase, List.replicate]
    | succ n ihn =>
      intro hn
      have hlt : 6 - (n + 1) < maxWriteRetries := by
        simp only [maxWriteRetries]; omega
      have hst : wstore6 (6 - (n + 1)) [req0] = [req0] := by
        simp only [wstore6]
        rw [if_pos (by omega)]
      have hs := underlyingBatchWrite_step wstore6 rand0 [req0] (6 - (n + 1))
        true hlt (by rw [hst]; simp)
      rw [hst] at hs
      have hsucc : 6 - (n + 1) + 1 = 6 - n := by omega
      rw [hsucc] at hs
      obtain ⟨iho, ihc⟩ := ihn (by omega)
      rw [hs]
      exact ⟨iho, by simp [ihc, List.replicate_succ]⟩
  have h := hstep 6 (le_refl 6)
  simpa using h

theorem underlyingBatchWrite_calls_head
    (store : Nat → List PutRequest → List PutRequest) (rand : Nat → ℚ)
    (its : List PutRequest) (rc : Nat) (f : Bool) :
    (underlyingBatchWrite store rand its rc f).calls.head? = some its := by
  by_cases he : store rc its = []
  · rw [underlyingBatchWrite_done store rand its rc f he]; rfl
  · by_cases hrc : rc < maxWriteRetries
    · rw [underlyingBatchWrite_step store rand its rc f hrc he]; rfl
    · rw [underlyingBatchWrite_exhausted store rand its rc f hrc he]; rfl

/-- C9: each chunk's first native call submits exactly its own
deduplicated slice (chunks are deduplicated independently), and
cross-chunk duplicates survive: in `ex26` the duplicate key `("a", 0)`
straddles the 25-item chunk boundary and each of the two chunks submits
one item with that key, while the same-chunk duplicate pair in `exDup`
is pruned to the first occurrence. -/
theorem batchWrite_dedup_scope :
    (∀ (store : Nat → List PutRequest → List PutRequest) (rand : Nat → ℚ)
      (items : List Item) (f : Bool),
      (batchWrite store rand items f).map (fun r => r.calls.head?) =
        (sliceChunks batchWriteStep items).map (fun chunk =>
          some ((removeDuplicateKeys chunk).map
            (fun item => PutRequest.mk item)))) ∧
    (batchWrite wstoreNone rand0 ex26 true).map
        (fun r => r.calls.flatten.countP
          (fun pr => pr.item.PK == "a" && pr.item.SK == 0)) = [1, 1] ∧
    (batchWrite wstoreNone rand0 exDup true).map (fun r => r.calls) =
      [[[PutRequest.mk ⟨"a", 0, 0⟩]]] := by
  have hw : ∀ its : List PutRequest,
      underlyingBatchWrite wstoreNone rand0 its 0 true =
        ⟨[its], [], Except.ok ()⟩ :=
    fun its => underlyingBatchWrite_done wstoreNone rand0 its 0 true rfl
  refine ⟨?_, ?_, ?_⟩
  · intro store rand items f
    simp [batchWrite, underlyingBatchWrite_calls_head]
  · rw [show batchWrite wstoreNone rand0 ex26 true =
        (sliceChunks batchWriteStep ex26).map (fun c =>
          ⟨[(removeDuplicateKeys c).map (fun item => PutRequest.mk item)], [],
            Except.ok ()⟩) from by simp [batchWrite, hw]]
    decide
  · rw [show batchWrite wstoreNone rand0 exDup true =
        (sliceChunks batchWriteStep exDup).map (fun c =>
          ⟨[(removeDuplicateKeys c).map (fun item => PutRequest.mk item)], [],
            Except.ok ()⟩) from by simp [batchWrite, hw]]
    decide

theorem underlyingBatchWrite_calls_le
    (store : Nat → List PutRequest → List PutRequest) (rand : Nat → ℚ)
    (f : Bool) (N : Nat) (hs : ∀ k sent, (store k sent).Sublist sent) :
    ∀ n rc items, 6 - rc ≤ n → items.length ≤ N →
    ∀ c ∈ (underlyingBatchWrite store rand items rc f).calls,
      c.length ≤ N := by
  intro n
  induction n with
  | zero =>
    intro rc items hn hlen c hc
    by_cases he : store rc items = []
    · rw [underlyingBatchWrite_done store rand items rc f he] at hc
      simp only [List.mem_singleton] at hc
      subst hc; exact hlen
    · have hrc : ¬rc < maxWriteRetries := by simp only [maxWriteRetries]; omega
      rw [underlyingBatchWrite_exhausted store rand items rc f hrc he] at hc
      simp only [List.mem_singleton] at hc
      subst hc; exact hlen
  | succ n ihn =>
    intro rc items hn hlen c hc
    by_cases he : store rc items = []
    · rw [underlyingBatchWrite_done store rand items rc f he] at hc
      simp only [List.mem_singleton] at hc
      subst hc; exact hlen
    · by_cases hrc : rc < maxWriteRetries
      · rw [underlyingBatchWrite_step store rand items rc f hrc he] at hc
        rcases List.mem_cons.mp hc with rfl | hc'
        · exact hlen
        · have hrec : (store rc items).length ≤ N :=
            le_trans (List.Sublist.length_le (hs rc items)) hlen
          have hrc6 : rc < 6 := by simpa [maxWriteRetries] using hrc
          exact ihn (rc + 1) (store rc items) (by omega) hrec c hc'
      · rw [underlyingBatchWrite_exhausted store rand items rc f hrc he] at hc
        simp only [List.mem_singleton] at hc
        subst hc; exact hlen

theorem bgRequests_length_le (keys : List Item) :
    ∀ c ∈ bgRequests keys, c.length ≤ 100 := by
  intro c hc
  obtain ⟨chunk, hchunk, rfl⟩ := List.mem_map.mp hc
  exact le_trans
    (List.Sublist.length_le (removeDuplicateKeys_sublist chunk))
    (sliceChunks_length_le batchGetStep keys chunk hchunk)

theorem batchGet_calls_le (gstore : Nat → List Item → GetResp) :
    ∀ (r : Nat) (keys : List Item),
    ∀ c ∈ (batchGet gstore r keys).calls, c.length ≤ 100 := by
  intro r
  induction r with
  | zero => intro keys c hc; simp [batchGet] at hc
  | succ r ih =>
    intro keys c hc
    by_cases hu : bgUnprocessed gstore (r + 1) keys = []
    · rw [batchGet_succ_nil gstore r keys hu] at hc
      exact bgRequests_length_le keys c hc
    · rw [batchGet_succ_pos gstore r keys hu] at hc
      rcases List.mem_append.mp hc with h | h
      · exact bgRequests_length_le keys c h
      · exact ih _ c h

/-- C2: for every caller input, as long as the store's unprocessed
remainder is a sub-batch of what was submitted (its partial-success
contract), every native batch-write call issued by `batchWrite` has at
most 25 items; and every native batch-get call issued by `batchGet` has
at most 100 keys, with no assumption on the read store. -/
theorem chunk_limits (store : Nat → List PutRequest → List PutRequest)
    (rand : Nat → ℚ) (items : List Item) (f : Bool)
    (hs : ∀ k sent, (store k sent).Sublist sent)
    (gstore : Nat → List Item → GetResp) (r : Nat) (keys : List Item) :
    (∀ res ∈ batchWrite store rand items f,
      ∀ c ∈ res.calls, c.length ≤ 25) ∧
    (∀ c ∈ (batchGet gstore r keys).calls, c.length ≤ 100) := by
  constructor
  · intro res hres c hc
    obtain ⟨chunk, hchunk, rfl⟩ := List.mem_map.mp hres
    have hinit :
        ((removeDuplicateKeys chunk).map
          (fun item => PutRequest.mk item)).length ≤ 25 := by
      rw [List.length_map]
      exact le_trans
        (List.Sublist.length_le (removeDuplicateKeys_sublist chunk))
        (sliceChunks_length_le batchWriteStep items chunk hchunk)
    exact underlyingBatchWrite_calls_le store rand f 25 hs 6 0 _ (by omega)
      hinit c hc
  · exact batchGet_calls_le gstore r keys

/-- Witness for C2: writing 60 items and reading 250 keys against
concrete stores never exceeds the native per-call limits. -/
theorem chunk_limits_witness :
    (∀ k sent, ((wstoreNone k sent) : List PutRequest).Sublist sent) ∧
    (∀ res ∈ batchWrite wstoreNone rand0 items60 true,
      ∀ c ∈ res.calls, c.length ≤ 25) ∧
    (∀ c ∈ (batchGet gstoreNone 3 keys250).calls, c.length ≤ 100) := by
  have hs : ∀ k sent, ((wstoreNone k sent) : List PutRequest).Sublist sent :=
    fun _ _ => List.nil_sublist _
  exact ⟨hs,
    (chunk_limits wstoreNone rand0 items60 true hs gstoreNone 3 keys250).1,
    (chunk_limits wstoreNone rand0 items60 true hs gstoreNone 3 keys250).2⟩

end DDB
